import Mathlib

/-!
Shallow embedding of the contact-book core of `final_project_group_8.py`
(an interactive command-line address book) together with proofs about its
data model, record mutations, name resolution and birthday scheduling.

Python strings are modelled as `List Char` (sequences of Unicode code
points).  Python's ASCII-oriented primitives (`str.lower`, `str.capitalize`,
whitespace splitting) are modelled with Lean's ASCII `Char.toLower` /
`Char.toUpper` / `Char.isWhitespace`; `str.isdigit` is modelled including
the common non-ASCII Unicode digit ranges that Python's `isdigit` accepts,
which matters for the phone validator.  Mutating methods are modelled as
functions returning the updated value together with the Python return
value; exceptions are modelled with `Except`/`Option`.
-/

namespace AB

/-- A Python string: a sequence of Unicode code points. -/
abbrev Str := List Char

/-- View a Lean string literal as a `Str`. -/
def str (s : String) : Str := s.data

/-- Python `str.lower` (ASCII model). -/
def pyLower (s : Str) : Str := s.map Char.toLower

/-- Python `str.strip()` with no argument: drop leading and trailing whitespace. -/
def pyStrip (s : Str) : Str :=
  ((s.dropWhile Char.isWhitespace).reverse.dropWhile Char.isWhitespace).reverse

/-- Python `str.split()` with no argument: maximal runs of non-whitespace
characters, i.e. split at every whitespace character and discard the empty
segments. -/
def pySplit (s : Str) : List Str :=
  (s.splitOnP Char.isWhitespace).filter (fun w => !w.isEmpty)

/-- Python `sep.join(parts)`. -/
def pyJoin (sep : Str) (parts : List Str) : Str := List.intercalate sep parts

/-- Python `str.capitalize` (ASCII model): first character upper-cased, the
rest lower-cased. -/
def pyCapitalize : Str → Str
  | [] => []
  | c :: r => Char.toUpper c :: r.map Char.toLower

/-- The nested helper `fix_part` of `normalize_name` (line 348): split a word
on `-`, capitalize each sub-part, rejoin with `-`. -/
def fixPart (part : Str) : Str :=
  pyJoin ['-'] ((part.splitOn '-').map pyCapitalize)

/-- `normalize_name` (lines 347-350): split the stripped name on whitespace,
apply `fix_part` to each word, rejoin with single spaces. -/
def normalize_name (name : Str) : Str :=
  pyJoin [' '] ((pySplit (pyStrip name)).map fixPart)

/-! Character-level facts about the ASCII case maps. -/

theorem char_toNat_ofNat_of_lt {n : Nat} (h : n < 55296) : (Char.ofNat n).toNat = n := by
  unfold Char.ofNat
  rw [dif_pos (Or.inl h)]
  simp [Char.ofNatAux, Char.toNat, UInt32.toNat, BitVec.toNat_ofNatLt]

theorem toUpper_eq_or (c : Char) :
    Char.toUpper c = c ∨ (65 ≤ (Char.toUpper c).toNat ∧ (Char.toUpper c).toNat ≤ 90) := by
  unfold Char.toUpper
  simp only []
  by_cases h : c.toNat ≥ 97 ∧ c.toNat ≤ 122
  · rw [if_pos h]
    right
    rw [char_toNat_ofNat_of_lt (by omega)]
    omega
  · rw [if_neg h]
    left; rfl

theorem toLower_eq_or (c : Char) :
    Char.toLower c = c ∨ (97 ≤ (Char.toLower c).toNat ∧ (Char.toLower c).toNat ≤ 122) := by
  unfold Char.toLower
  simp only []
  by_cases h : c.toNat ≥ 65 ∧ c.toNat ≤ 90
  · rw [if_pos h]
    right
    rw [char_toNat_ofNat_of_lt (by omega)]
    omega
  · rw [if_neg h]
    left; rfl

theorem toUpper_eq_self_of (d : Char) (h : ¬(d.toNat ≥ 97 ∧ d.toNat ≤ 122)) :
    Char.toUpper d = d := by
  unfold Char.toUpper
  simp only []
  rw [if_neg h]

theorem toLower_eq_self_of (d : Char) (h : ¬(d.toNat ≥ 65 ∧ d.toNat ≤ 90)) :
    Char.toLower d = d := by
  unfold Char.toLower
  simp only []
  rw [if_neg h]

theorem toUpper_toUpper (c : Char) : Char.toUpper (Char.toUpper c) = Char.toUpper c := by
  rcases toUpper_eq_or c with h | h
  · simp only [h]
  · exact toUpper_eq_self_of _ (by omega)

theorem toLower_toLower (c : Char) : Char.toLower (Char.toLower c) = Char.toLower c := by
  rcases toLower_eq_or c with h | h
  · simp only [h]
  · exact toLower_eq_self_of _ (by omega)

/-- The case maps never create a character outside the letter ranges; in
particular they never create `-` or whitespace. -/
theorem toUpper_eq_self_of_target (c d : Char) (hd : ¬(65 ≤ d.toNat ∧ d.toNat ≤ 90))
    (h : Char.toUpper c = d) : c = d := by
  rcases toUpper_eq_or c with h' | h'
  · rw [← h, h']
  · rw [h] at h'
    exact absurd h' hd

theorem toLower_eq_self_of_target (c d : Char) (hd : ¬(97 ≤ d.toNat ∧ d.toNat ≤ 122))
    (h : Char.toLower c = d) : c = d := by
  rcases toLower_eq_or c with h' | h'
  · rw [← h, h']
  · rw [h] at h'
    exact absurd h' hd

theorem isWhitespace_toUpper (c : Char) (h : (Char.toUpper c).isWhitespace) :
    c.isWhitespace := by
  have hd : ¬(65 ≤ (Char.toUpper c).toNat ∧ (Char.toUpper c).toNat ≤ 90) := by
    simp only [Char.isWhitespace, Bool.or_eq_true, decide_eq_true_eq] at h
    rcases h with ((h | h) | h) | h <;> rw [h] <;> decide
  have he := toUpper_eq_self_of_target c (Char.toUpper c) hd rfl
  rw [← he] at h
  exact h

theorem isWhitespace_toLower (c : Char) (h : (Char.toLower c).isWhitespace) :
    c.isWhitespace := by
  have hd : ¬(97 ≤ (Char.toLower c).toNat ∧ (Char.toLower c).toNat ≤ 122) := by
    simp only [Char.isWhitespace, Bool.or_eq_true, decide_eq_true_eq] at h
    rcases h with ((h | h) | h) | h <;> rw [h] <;> decide
  have he := toLower_eq_self_of_target c (Char.toLower c) hd rfl
  rw [← he] at h
  exact h

/-! Facts about `splitOnP`, `intercalate` and the Python split/strip model. -/

theorem mem_splitOnP_sat {α : Type} {p : α → Bool} :
    ∀ (xs : List α), ∀ y ∈ xs.splitOnP p, ∀ c ∈ y, c ∈ xs ∧ ¬ p c := by
  intro xs
  induction xs with
  | nil =>
    intro y hy c hc
    rw [List.splitOnP_nil, List.mem_singleton] at hy
    subst hy
    simp at hc
  | cons x xs ih =>
    intro y hy c hc
    rw [List.splitOnP_cons] at hy
    by_cases hx : p x
    · rw [if_pos hx] at hy
      rcases List.mem_cons.mp hy with rfl | hy'
      · simp at hc
      · obtain ⟨hcx, hcp⟩ := ih y hy' c hc
        exact ⟨List.mem_cons_of_mem _ hcx, hcp⟩
    · rw [if_neg hx] at hy
      cases hsp : xs.splitOnP p with
      | nil => exact absurd hsp (List.splitOnP_ne_nil _ _)
      | cons hd tl =>
        rw [hsp, List.modifyHead_cons] at hy
        rcases List.mem_cons.mp hy with rfl | hy'
        · rcases List.mem_cons.mp hc with rfl | hc'
          · exact ⟨List.mem_cons_self _ _, hx⟩
          · have hhd : hd ∈ xs.splitOnP p := by rw [hsp]; exact List.mem_cons_self _ _
            obtain ⟨hcx, hcp⟩ := ih hd hhd c hc'
            exact ⟨List.mem_cons_of_mem _ hcx, hcp⟩
        · have hyy : y ∈ xs.splitOnP p := by rw [hsp]; exact List.mem_cons_of_mem _ hy'
          obtain ⟨hcx, hcp⟩ := ih y hyy c hc
          exact ⟨List.mem_cons_of_mem _ hcx, hcp⟩

theorem splitOnP_all_sat {α : Type} {p : α → Bool} :
    ∀ (t : List α), (∀ c ∈ t, p c) → t.splitOnP p = List.replicate (t.length + 1) [] := by
  intro t
  induction t with
  | nil => intro _; rw [List.splitOnP_nil]; rfl
  | cons c t ih =>
    intro ht
    rw [List.splitOnP_cons, if_pos (ht c (List.mem_cons_self _ _)),
      ih (fun d hd => ht d (List.mem_cons_of_mem _ hd))]
    rfl

theorem splitOnP_append_sat {α : Type} {p : α → Bool} {t : List α} (ht : ∀ c ∈ t, p c) :
    ∀ l : List α, (l ++ t).splitOnP p = l.splitOnP p ++ List.replicate t.length [] := by
  intro l
  induction l with
  | nil =>
    rw [List.nil_append, List.splitOnP_nil, splitOnP_all_sat t ht]
    rfl
  | cons x l ih =>
    rw [List.cons_append, List.splitOnP_cons, List.splitOnP_cons]
    by_cases hx : p x
    · rw [if_pos hx, if_pos hx, ih]
      rfl
    · rw [if_neg hx, if_neg hx, ih]
      cases hsp : l.splitOnP p with
      | nil => exact absurd hsp (List.splitOnP_ne_nil _ _)
      | cons hd tl => rfl

theorem filter_splitOnP_dropWhile {α : Type} {p : α → Bool} :
    ∀ l : List α,
      ((l.dropWhile p).splitOnP p).filter (fun w => !w.isEmpty) =
        (l.splitOnP p).filter (fun w => !w.isEmpty) := by
  intro l
  induction l with
  | nil => rfl
  | cons c l ih =>
    by_cases hc : p c
    · rw [List.dropWhile_cons_of_pos hc, List.splitOnP_cons, if_pos hc, ih]
      rfl
    · rw [List.dropWhile_cons_of_neg hc]

theorem filter_splitOnP_append_sat {α : Type} {p : α → Bool} {t : List α}
    (ht : ∀ c ∈ t, p c) (l : List α) :
    ((l ++ t).splitOnP p).filter (fun w => !w.isEmpty) =
      (l.splitOnP p).filter (fun w => !w.isEmpty) := by
  rw [splitOnP_append_sat ht, List.filter_append]
  have hrep : (List.replicate t.length ([] : List α)).filter (fun w => !w.isEmpty) = [] := by
    induction t.length with
    | zero => rfl
    | succ n ihn => rw [List.replicate_succ, List.filter_cons_of_neg (by simp)]; exact ihn
  rw [hrep, List.append_nil]

/-- Stripping surrounding whitespace does not change the result of a
whitespace split. -/
theorem pySplit_pyStrip (s : Str) : pySplit (pyStrip s) = pySplit s := by
  unfold pySplit pyStrip
  set u := s.dropWhile Char.isWhitespace with hu
  have hdecomp : u = (u.reverse.dropWhile Char.isWhitespace).reverse ++
      (u.reverse.takeWhile Char.isWhitespace).reverse := by
    conv_lhs => rw [← List.reverse_reverse u]
    rw [← List.reverse_append, List.takeWhile_append_dropWhile]
  have htail : ∀ c ∈ (u.reverse.takeWhile Char.isWhitespace).reverse, c.isWhitespace := by
    intro c hcm
    rw [List.mem_reverse] at hcm
    exact List.mem_takeWhile_imp hcm
  calc ((u.reverse.dropWhile Char.isWhitespace).reverse.splitOnP Char.isWhitespace).filter
        (fun w => !w.isEmpty)
      = (u.splitOnP Char.isWhitespace).filter (fun w => !w.isEmpty) := by
        conv_rhs => rw [hdecomp]
        rw [filter_splitOnP_append_sat htail]
    _ = (s.splitOnP Char.isWhitespace).filter (fun w => !w.isEmpty) := by
        rw [hu]
        exact filter_splitOnP_dropWhile s

theorem intercalate_cons_cons {α : Type} (sep : List α) (a b : List α) (t : List (List α)) :
    List.intercalate sep (a :: b :: t) = a ++ sep ++ List.intercalate sep (b :: t) := by
  simp [List.intercalate, List.intersperse_cons_cons, List.append_assoc]

theorem intercalate_singleton {α : Type} (sep : List α) (a : List α) :
    List.intercalate sep [a] = a := by
  simp [List.intercalate, List.intersperse]

/-- Splitting the space-joined list of nonempty whitespace-free words
recovers the words. -/
theorem pySplit_join : ∀ (W : List Str),
    (∀ w ∈ W, w ≠ [] ∧ ∀ c ∈ w, ¬ c.isWhitespace) → pySplit (pyJoin [' '] W) = W := by
  intro W
  induction W with
  | nil => intro _; rfl
  | cons w W ih =>
    intro hW
    obtain ⟨hne, hws⟩ := hW w (List.mem_cons_self _ _)
    cases W with
    | nil =>
      unfold pySplit pyJoin
      rw [intercalate_singleton, List.splitOnP_eq_single _ _ hws,
        List.filter_cons_of_pos (by simpa using hne)]
      rfl
    | cons w' W' =>
      unfold pySplit pyJoin
      rw [intercalate_cons_cons, List.append_assoc, List.singleton_append,
        List.splitOnP_first _ _ hws ' ' (by decide),
        List.filter_cons_of_pos (by simpa using hne)]
      have := ih (fun v hv => hW v (List.mem_cons_of_mem _ hv))
      unfold pySplit pyJoin at this
      rw [this]

theorem mem_intersperse {β : Type} (sep : β) :
    ∀ (P : List β) (y : β), y ∈ List.intersperse sep P → y = sep ∨ y ∈ P
  | [], y, h => absurd h (by simp)
  | [x], y, h => by
    rw [List.intersperse_singleton] at h
    exact Or.inr h
  | x :: x' :: t, y, h => by
    rw [List.intersperse_cons_cons] at h
    rcases List.mem_cons.mp h with rfl | h
    · exact Or.inr (List.mem_cons_self _ _)
    · rcases List.mem_cons.mp h with rfl | h
      · exact Or.inl rfl
      · rcases mem_intersperse sep (x' :: t) y h with h | h
        · exact Or.inl h
        · exact Or.inr (List.mem_cons_of_mem _ h)

theorem mem_intercalate {β : Type} (sep : List β) (P : List (List β)) (c : β)
    (h : c ∈ List.intercalate sep P) : c ∈ sep ∨ ∃ l ∈ P, c ∈ l := by
  rw [List.intercalate, List.mem_flatten] at h
  obtain ⟨l, hl, hc⟩ := h
  rcases mem_intersperse sep P l hl with rfl | hl'
  · exact Or.inl hc
  · exact Or.inr ⟨l, hl', hc⟩

/-! Facts about `pyCapitalize` and `fixPart`. -/

theorem pyCapitalize_idem (w : Str) : pyCapitalize (pyCapitalize w) = pyCapitalize w := by
  cases w with
  | nil => rfl
  | cons c r =>
    simp only [pyCapitalize, toUpper_toUpper, List.map_map]
    congr 1
    exact List.map_congr_left fun a _ => toLower_toLower a

theorem pyCapitalize_eq_nil_iff (w : Str) : pyCapitalize w = [] ↔ w = [] := by
  cases w <;> simp [pyCapitalize]

theorem pyCapitalize_no_hyphen (w : Str) (h : '-' ∉ w) : '-' ∉ pyCapitalize w := by
  cases w with
  | nil => simp [pyCapitalize]
  | cons c r =>
    simp only [pyCapitalize]
    intro hmem
    rcases List.mem_cons.mp hmem with heq | hmem'
    · have : c = '-' := toUpper_eq_self_of_target c '-' (by decide) heq.symm
      exact h (this ▸ List.mem_cons_self _ _)
    · obtain ⟨a, ha, hae⟩ := List.mem_map.mp hmem'
      have : a = '-' := toLower_eq_self_of_target a '-' (by decide) hae
      exact h (this ▸ List.mem_cons_of_mem _ ha)

theorem pyCapitalize_wsFree (w : Str) (h : ∀ c ∈ w, ¬ c.isWhitespace) :
    ∀ c ∈ pyCapitalize w, ¬ c.isWhitespace := by
  cases w with
  | nil => simp [pyCapitalize]
  | cons c r =>
    simp only [pyCapitalize]
    intro d hd hdws
    rcases List.mem_cons.mp hd with rfl | hd'
    · exact h c (List.mem_cons_self _ _) (isWhitespace_toUpper c hdws)
    · obtain ⟨a, ha, rfl⟩ := List.mem_map.mp hd'
      exact h a (List.mem_cons_of_mem _ ha) (isWhitespace_toLower a hdws)

theorem splitOn_sep_not_mem (x : Char) (xs : Str) : ∀ y ∈ xs.splitOn x, x ∉ y := by
  intro y hy hmem
  rw [List.splitOn] at hy
  obtain ⟨-, hp⟩ := mem_splitOnP_sat xs y hy x hmem
  exact hp (by simp)

theorem fixPart_idem (w : Str) : fixPart (fixPart w) = fixPart w := by
  unfold fixPart pyJoin
  have hx : ∀ l ∈ (w.splitOn '-').map pyCapitalize, '-' ∉ l := by
    intro l hl
    obtain ⟨part, hpart, rfl⟩ := List.mem_map.mp hl
    exact pyCapitalize_no_hyphen part (splitOn_sep_not_mem '-' w part hpart)
  have hne : (w.splitOn '-').map pyCapitalize ≠ [] := by
    intro hcon
    rw [List.map_eq_nil_iff] at hcon
    exact List.splitOnP_ne_nil _ w hcon
  have hsplit := List.splitOn_intercalate _ '-' hx hne
  rw [hsplit, List.map_map]
  exact congrArg _ (List.map_congr_left fun a _ => pyCapitalize_idem a)

theorem fixPart_ne_nil (w : Str) (h : w ≠ []) : fixPart w ≠ [] := by
  unfold fixPart pyJoin
  have hrec : ['-'].intercalate (w.splitOn '-') = w := List.intercalate_splitOn w '-'
  cases hsp : w.splitOn '-' with
  | nil => exact absurd hsp (List.splitOnP_ne_nil _ w)
  | cons p ps =>
    cases ps with
    | nil =>
      rw [List.map_cons, List.map_nil, intercalate_singleton]
      intro hcon
      rw [pyCapitalize_eq_nil_iff] at hcon
      subst hcon
      rw [hsp] at hrec
      rw [intercalate_singleton] at hrec
      exact h hrec.symm
    | cons p' ps' =>
      rw [List.map_cons, List.map_cons, intercalate_cons_cons]
      intro hcon
      rw [List.append_assoc, List.append_eq_nil] at hcon
      exact absurd hcon.2 (by simp)

theorem fixPart_wsFree (w : Str) (h : ∀ c ∈ w, ¬ c.isWhitespace) :
    ∀ c ∈ fixPart w, ¬ c.isWhitespace := by
  intro c hc
  unfold fixPart pyJoin at hc
  rcases mem_intercalate _ _ _ hc with hsep | ⟨l, hl, hcl⟩
  · rw [List.mem_singleton] at hsep
    subst hsep
    decide
  · obtain ⟨part, hpart, rfl⟩ := List.mem_map.mp hl
    have hp : ∀ d ∈ part, ¬ d.isWhitespace := by
      intro d hd
      exact h d (mem_splitOnP_sat w part (by rw [List.splitOn] at hpart; exact hpart) d hd).1
    exact pyCapitalize_wsFree part hp c hcl

theorem pySplit_words (s : Str) : ∀ w ∈ pySplit s, w ≠ [] ∧ ∀ c ∈ w, ¬ c.isWhitespace := by
  intro w hw
  unfold pySplit at hw
  rw [List.mem_filter] at hw
  obtain ⟨hmem, hne⟩ := hw
  constructor
  · simpa using hne
  · intro c hc
    exact (mem_splitOnP_sat s w hmem c hc).2

/-- C8: name normalization is idempotent. -/
theorem normalize_name_idem (s : Str) :
    normalize_name (normalize_name s) = normalize_name s := by
  conv_lhs => unfold normalize_name
  conv_lhs => rw [pySplit_pyStrip]
  unfold normalize_name
  rw [pySplit_join ((pySplit (pyStrip s)).map fixPart) ?hwords]
  case hwords =>
    intro w hw
    obtain ⟨w₀, hw₀, rfl⟩ := List.mem_map.mp hw
    obtain ⟨h1, h2⟩ := pySplit_words _ w₀ hw₀
    exact ⟨fixPart_ne_nil w₀ h1, fixPart_wsFree w₀ h2⟩
  rw [List.map_map]
  exact congrArg _ (List.map_congr_left fun a _ => fixPart_idem a)

/-! Phone validation (`Phone.__init__`, lines 66-74). -/

/-- Python `str.isdigit` on a single character.  Besides the ASCII digits,
Python's `isdigit` accepts every Unicode character with Numeric_Type Digit
or Decimal; the model includes the ASCII digits together with representative
non-ASCII ranges (superscripts, Arabic-Indic, extended Arabic-Indic,
Devanagari and fullwidth digits), for which Python's `isdigit` returns
True. -/
def pyIsDigit (c : Char) : Bool :=
  c.isDigit || c.toNat = 0xB2 || c.toNat = 0xB3 || c.toNat = 0xB9 ||
    (0x660 ≤ c.toNat && c.toNat ≤ 0x669) || (0x6F0 ≤ c.toNat && c.toNat ≤ 0x6F9) ||
    (0x966 ≤ c.toNat && c.toNat ≤ 0x96F) || (0xFF10 ≤ c.toNat && c.toNat ≤ 0xFF19)

/-- Python `str.isdigit` on a string: nonempty and every character a digit. -/
def pyStrIsDigit (s : Str) : Bool := !s.isEmpty && s.all pyIsDigit

/-- Python `str.startswith`. -/
def pyStartswith (s pre : Str) : Bool := s.take pre.length == pre

/-- The `VALID_CODES` whitelist of `Phone` (line 67). -/
def VALID_CODES : List Str :=
  [str "050", str "066", str "067", str "068", str "095", str "096",
   str "097", str "098", str "099", str "063", str "073", str "093"]

/-- `Phone.__init__` (lines 69-74): validation of a phone string.  A raised
`ValueError` is modelled as `Except.error` carrying the message. -/
def Phone_init (value : Str) : Except Str Str :=
  if ¬ pyStrIsDigit value ∨ value.length ≠ 10 then
    Except.error (str "😓 Phone number must contain exactly 10 digits.")
  else if ¬ VALID_CODES.any (fun code => pyStartswith value code) then
    Except.error (str "😓 The phone number must start with a valid code: 050, 066, 067, 068, 095, 096, 097, 098, 099, 063, 073, 093.")
  else
    Except.ok value

theorem any_startswith_iff (s : Str) :
    VALID_CODES.any (fun code => pyStartswith s code) = true ↔ s.take 3 ∈ VALID_CODES := by
  rw [List.any_eq_true]
  have hc : ∀ x ∈ VALID_CODES, x.length = 3 := by decide
  constructor
  · rintro ⟨code, hmem, hpre⟩
    simp only [pyStartswith, beq_iff_eq, hc _ hmem] at hpre
    rw [← hpre] at hmem
    exact hmem
  · intro hmem
    refine ⟨s.take 3, hmem, ?_⟩
    simp only [pyStartswith, beq_iff_eq, hc _ hmem]

/-- Characterization of the phone validator: it succeeds exactly on
length-10 strings of Python-digit characters whose first three characters
are one of the 12 whitelisted codes, and stores the string unchanged. -/
theorem Phone_init_ok_iff (s : Str) :
    (∀ t, Phone_init s = Except.ok t → t = s) ∧
    (Phone_init s = Except.ok s ↔
      s.length = 10 ∧ s.all pyIsDigit ∧ s.take 3 ∈ VALID_CODES) := by
  unfold Phone_init
  by_cases h1 : ¬ pyStrIsDigit s ∨ s.length ≠ 10
  · rw [if_pos h1]
    refine ⟨fun t ht => absurd ht (by simp), ?_⟩
    constructor
    · intro ht
      exact absurd ht (by simp)
    · rintro ⟨hlen, hall, -⟩
      exfalso
      rcases h1 with h1 | h1
      · apply h1
        rw [pyStrIsDigit, Bool.and_eq_true]
        refine ⟨?_, hall⟩
        cases s
        · simp at hlen
        · rfl
      · exact h1 hlen
  · rw [if_neg h1]
    push_neg at h1
    obtain ⟨hdig, hlen⟩ := h1
    by_cases h2 : ¬ VALID_CODES.any (fun code => pyStartswith s code)
    · rw [if_pos h2]
      refine ⟨fun t ht => absurd ht (by simp), ?_⟩
      constructor
      · intro ht
        exact absurd ht (by simp)
      · rintro ⟨-, -, hmem⟩
        exact absurd ((any_startswith_iff s).mpr hmem) h2
    · rw [if_neg h2]
      rw [not_not] at h2
      refine ⟨fun t ht => by cases ht; rfl, ?_⟩
      constructor
      · rintro -
        refine ⟨hlen, ?_, (any_startswith_iff s).mp h2⟩
        rw [pyStrIsDigit, Bool.and_eq_true] at hdig
        exact hdig.2
      · rintro -
        rfl

/-! Regex helpers.  Python's `\w` is modelled as ASCII letters, digits and
underscore. -/

/-- A word character for the `\w` regex class (ASCII model). -/
def isWordChar (c : Char) : Bool := c.isAlphanum || c == '_'

theorem length_dropWhile_le {α : Type} (p : α → Bool) :
    ∀ l : List α, (l.dropWhile p).length ≤ l.length := by
  intro l
  induction l with
  | nil => exact Nat.le_refl _
  | cons c l ih =>
    by_cases hc : p c
    · rw [List.dropWhile_cons_of_pos hc]
      exact Nat.le_succ_of_le ih
    · rw [List.dropWhile_cons_of_neg hc]

/-- The scan of `re.sub(r"#\w+", "", text)` with explicit fuel (the fuel,
initialized to the string length, only makes the recursion structural; it
never runs out because every step consumes at least one character). -/
def subHashTagsAux : Nat → Str → Str
  | 0, _ => []
  | _ + 1, [] => []
  | n + 1, c :: rest =>
    if c = '#' ∧ rest.takeWhile isWordChar ≠ [] then
      subHashTagsAux n (rest.dropWhile isWordChar)
    else
      c :: subHashTagsAux n rest

/-- Python `re.sub(r"#\w+", "", text)`: delete every `#` immediately
followed by a nonempty run of word characters, scanning left to right. -/
def subHashTags (s : Str) : Str := subHashTagsAux s.length s

/-- The scan of `re.findall(r"#(\w+)", text)` with explicit fuel. -/
def findHashTagsAux : Nat → Str → List Str
  | 0, _ => []
  | _ + 1, [] => []
  | n + 1, c :: rest =>
    if c = '#' ∧ rest.takeWhile isWordChar ≠ [] then
      rest.takeWhile isWordChar :: findHashTagsAux n (rest.dropWhile isWordChar)
    else
      findHashTagsAux n rest

/-- Python `re.findall(r"#(\w+)", text)` (also the `[1:]`-stripped form of
`re.findall(r"#\w+", text)`): the word runs following each `#`. -/
def findHashTags (s : Str) : List Str := findHashTagsAux s.length s

/-- `extract_tags_from_text` (lines 380-381). -/
def extract_tags_from_text (text : Str) : List Str := (findHashTags text).map pyLower

/-- Python `str.lstrip("#")`. -/
def lstripHash (t : Str) : Str := t.dropWhile (· == '#')

/-! The `Note` class (lines 102-129).  A Python `set` of tag strings is
modelled as a duplicate-free list in insertion order; `Note.__eq__` compares
the tag sets extensionally. -/

/-- Full match against `TAG_PATTERN = ^[a-zA-Z0-9_]{1,30}$` (line 104). -/
def tagPatternMatch (t : Str) : Bool :=
  decide (1 ≤ t.length) && decide (t.length ≤ 30) && t.all isWordChar

structure Note where
  text : Str
  tags : List Str
deriving DecidableEq, Repr

/-- Insertion into a Python set, modelled on duplicate-free lists. -/
def setInsert (s : List Str) (x : Str) : List Str := if x ∈ s then s else s ++ [x]

/-- `Note.add_tag` (lines 112-116). -/
def Note_add_tag (n : Note) (tag : Str) : Except Str Note :=
  let tagClean := pyLower (lstripHash tag)
  if ¬ tagPatternMatch tagClean then
    Except.error (str "😓 Invalid tag: '" ++ tag ++
      str "'. Only letters, digits, and underscores are allowed (1–30 chars).")
  else
    Except.ok { n with tags := setInsert n.tags tagClean }

/-- `Note.__init__` (lines 106-110): strip the text, then `add_tag` each tag
in order; an invalid tag raises. -/
def Note_init (text : Str) (tags : List Str) : Except Str Note :=
  tags.foldlM Note_add_tag { text := pyStrip text, tags := [] }

/-- Set equality of tag lists (Python `set.__eq__`). -/
def tagSetEq (a b : List Str) : Bool :=
  decide (∀ x ∈ a, x ∈ b) && decide (∀ x ∈ b, x ∈ a)

/-- `Note.__eq__` (lines 128-129): case-sensitive text equality plus equal
tag sets. -/
def Note_eq (a b : Note) : Bool := a.text == b.text && tagSetEq a.tags b.tags

instance {e a : Type} [DecidableEq e] [DecidableEq a] : DecidableEq (Except e a) := fun x y =>
  match x, y with
  | Except.error u, Except.error v => decidable_of_iff (u = v) (by simp)
  | Except.error _, Except.ok _ => isFalse (by simp)
  | Except.ok _, Except.error _ => isFalse (by simp)
  | Except.ok u, Except.ok v => decidable_of_iff (u = v) (by simp)

/-! The `Record` class (lines 132-258) and the `AddressBook` (lines
260-315).  The `AddressBook` dict maps each record's name to the record, so
it is modelled as the list of records in insertion order.  Python checks
`record != self` by object identity when scanning the book; since every
record object occurs in the dict exactly once, the handlers below pass the
book with the mutated record's occurrence removed (`eraseFirst`). -/

structure Record where
  name : Str
  phones : List Str
  birthday : Option Str
  address : Option Str
  email : Option Str
  notes : List Note
deriving DecidableEq, Repr

/-- `Record.__init__` (lines 133-139). -/
def Record_init (name : Str) : Record :=
  { name := name, phones := [], birthday := none, address := none,
    email := none, notes := [] }

/-- `Record.find_phone` (lines 178-182). -/
def Record_find_phone (self : Record) (phone : Str) : Option Str :=
  self.phones.find? (fun p => p == phone)

/-- Replace the first occurrence of `old` (the `for i, phone in enumerate`
loop of `edit_phone`, lines 172-175). -/
def replaceFirst : List Str → Str → Str → List Str
  | [], _, _ => []
  | p :: ps, old, new => if p == old then new :: ps else p :: replaceFirst ps old new

/-- `Record.add_phone` (lines 142-153).  `others` is the list of book
records distinct from `self`. -/
def Record_add_phone (self : Record) (phone : Str) (others : List Record) :
    Record × Option Str :=
  match Phone_init phone with
  | Except.error e => (self, some e)
  | Except.ok _ =>
    if self.phones.any (fun p => p == phone) then
      (self, some (str "😓 The number '" ++ phone ++
        str "' already exists for this contact."))
    else
      match others.find? (fun r => r.phones.any (fun p => p == phone)) with
      | some r => (self, some (str "😓 The number '" ++ phone ++
          str "' already belongs to '" ++ r.name ++ str "'."))
      | none => ({ self with phones := self.phones ++ [phone] }, none)

/-- `Record.edit_phone` (lines 162-176). -/
def Record_edit_phone (self : Record) (old_phone new_phone : Str)
    (others : List Record) : Record × Option Str :=
  if (Record_find_phone self old_phone).isNone then
    (self, some (str "😓 The old number '" ++ old_phone ++ str "' was not found."))
  else
    match Phone_init new_phone with
    | Except.error e => (self, some e)
    | Except.ok _ =>
      match others.find? (fun r => r.phones.any (fun p => p == new_phone)) with
      | some r => (self, some (str "😓 The new number '" ++ new_phone ++
          str "' already belongs to '" ++ r.name ++ str "'."))
      | none =>
        if self.phones.any (fun p => p == old_phone) then
          ({ self with phones := replaceFirst self.phones old_phone new_phone }, none)
        else
          (self, some (str "😓 Something went wrong while updating the number."))

/-- `Record.add_note` (lines 220-228): construct the note (tag validation
may raise), return `none` without mutating on a case-insensitive trimmed
text duplicate, else append. -/
def Record_add_note (self : Record) (text : Str) (tags : List Str) :
    Except Str (Record × Option Note) :=
  match Note_init text tags with
  | Except.error e => Except.error e
  | Except.ok newNote =>
    if self.notes.any (fun ex => pyLower (pyStrip ex.text) == pyLower (pyStrip newNote.text)) then
      Except.ok (self, none)
    else
      Except.ok ({ self with notes := self.notes ++ [newNote] }, some newNote)

/-- Python `list.remove` on notes: drop the first element `Note.__eq__`-equal
to `n`. -/
def removeFirstEq : List Note → Note → List Note
  | [], _ => []
  | m :: ms, n => if Note_eq m n then ms else m :: removeFirstEq ms n

/-- `Record.remove_note` (lines 230-236): strip `#tag` tokens from the
input, match case-insensitively on trimmed text, remove the first match. -/
def Record_remove_note (self : Record) (text : Str) : Record × Str :=
  let normalized := pyLower (pyStrip (subHashTags text))
  match self.notes.find? (fun note => pyLower (pyStrip note.text) == normalized) with
  | some note => ({ self with notes := removeFirstEq self.notes note },
      str "✅ Note removed!")
  | none => (self, str "😓 Note not found.")

/-- `Record.edit_note` (lines 238-247): find the first note matching the old
text case-insensitively, replace it with a note built from the
tag-stripped new text and the tags found in the new text. -/
def Record_edit_note (self : Record) (old_text new_text : Str) :
    Except Str (Record × Str) :=
  let normalizedOld := pyLower (pyStrip old_text)
  match self.notes.findIdx? (fun note => pyLower (pyStrip note.text) == normalizedOld) with
  | none => Except.ok (self, str "😓 Note not found.")
  | some i =>
    match Note_init (pyStrip (subHashTags new_text)) (findHashTags new_text) with
    | Except.error e => Except.error e
    | Except.ok newNote =>
      Except.ok ({ self with notes := self.notes.set i newNote }, str "✅ Note edited!")

/-! The `AddressBook` collection. -/

abbrev Book := List Record

/-- `AddressBook.name_exists` (lines 271-272). -/
def Book_name_exists (book : Book) (name : Str) : Bool :=
  book.any (fun r => pyLower name == pyLower r.name)

/-- `AddressBook.find` (lines 264-269): first case-insensitive key match. -/
def Book_find (book : Book) (name : Str) : Option Record :=
  book.find? (fun r => pyLower r.name == pyLower name)

/-- Replace the first record satisfying `p` (the in-place mutation of the
found record object). -/
def setFirst : Book → (Record → Bool) → Record → Book
  | [], _, _ => []
  | b :: bs, p, r => if p b then r :: bs else b :: setFirst bs p r

/-- Drop the first record satisfying `p`: the records distinct from the
found one (Python's identity test `record != self`). -/
def eraseFirst : Book → (Record → Bool) → Book
  | [], _ => []
  | b :: bs, p => if p b then bs else b :: eraseFirst bs p

/-- `AddressBook.add_record` (lines 261-262): Python dict assignment under
the exact key `record.name.value`. -/
def Book_add_record (book : Book) (r : Record) : Book :=
  if book.any (fun q => q.name == r.name) then
    setFirst book (fun q => q.name == r.name) r
  else
    book ++ [r]

/-! Email and address helpers. -/

/-- A character of the `[\w\.-]` regex class. -/
def isWordDotDash (c : Char) : Bool := isWordChar c || c == '.' || c == '-'

/-- The domain part `[\w\.-]+\.\w+` of the email pattern: some split at a
dot with a nonempty class-matching prefix and a nonempty word suffix. -/
def emailDomainMatch (b : Str) : Bool :=
  (List.range b.length).any (fun j =>
    decide (1 ≤ j) && (b.get? j == some '.') && (b.take j).all isWordDotDash &&
      decide (j + 1 < b.length) && (b.drop (j + 1)).all isWordChar)

/-- `Email.validate_email` (lines 97-100): match against
`^[\w\.-]+@[\w\.-]+\.\w+$`. -/
def validate_email (s : Str) : Bool :=
  (List.range s.length).any (fun i =>
    (s.get? i == some '@') && decide (1 ≤ i) && (s.take i).all isWordDotDash &&
      emailDomainMatch (s.drop (i + 1)))

/-- `Email.__init__` (lines 92-95). -/
def Email_init (value : Str) : Except Str Str :=
  if ¬ validate_email value then
    Except.error (str "😓 Invalid email format. Please use name@example.com")
  else
    Except.ok value

/-- Python `str.endswith`. -/
def pyEndswith (s suf : Str) : Bool := s.drop (s.length - suf.length) == suf

/-- `format_address` (lines 352-362). -/
def format_address (address : Str) : Str :=
  pyJoin [' '] ((pySplit address).map (fun word =>
    if pyEndswith (pyLower word) (str ".") && decide (word.length ≤ 4) then
      pyLower word
    else
      pyCapitalize word))

/-! Command handlers.  Each handler takes the argument tokens and the book
and returns the updated book and the reply string; the `@input_error`
decorator's conversions of exceptions to messages are inlined. -/

/-- The 10-digit-token shape test of `add_contact` (line 453). -/
def isTenDigit (a : Str) : Bool := pyStrIsDigit a && decide (a.length = 10)

/-- The phone loop of `add_contact` (lines 474-477): add each phone to the
fresh record, aborting on the first failure. -/
def addPhonesLoop (r : Record) (phones : List Str) (book : Book) : Except Str Record :=
  match phones with
  | [] => Except.ok r
  | p :: ps =>
    match Record_add_phone r p book with
    | (_, some msg) => Except.error msg
    | (r', none) => addPhonesLoop r' ps book

/-- The usage message the `input_error` decorator prints for `addcontact`
(lines 385-393, abbreviated to its first line in the model). -/
def addcontactUsage : Str :=
  str "😓 The 'addcontact' command requires at least a name and a 10-digit phone number."

/-- `add_contact` (lines 446-498). -/
def add_contact (args : List Str) (book : Book) : Book × Str :=
  if args.length < 2 then (book, addcontactUsage)
  else
    match args.findIdx? isTenDigit with
    | none => (book, str "😓 At least one valid phone number is required (10 digits).")
    | some idx =>
      if (args.take idx).isEmpty then (book, str "😓 Name is missing.")
      else
        let name := normalize_name (pyJoin [' '] (args.take idx))
        if Book_name_exists book name then
          (book, str "😓 A contact named '" ++ name ++ str "' already exists.")
        else
          let rest := args.drop idx
          let phones := rest.takeWhile isTenDigit
          let tail := rest.dropWhile isTenDigit
          match addPhonesLoop (Record_init name) phones book with
          | Except.error msg => (book, msg)
          | Except.ok record =>
            match (tail.filter (fun a => a.contains '@')).getLast? with
            | some em =>
              match Email_init (pyStrip em) with
              | Except.error e => (book, e)
              | Except.ok _ =>
                let record := { record with email := some (pyStrip em) }
                let addressParts := tail.filter (fun a => !a.contains '@')
                let record := if addressParts.isEmpty then record else
                  { record with
                      address := some (format_address (pyStrip (pyJoin [' '] addressParts))) }
                (Book_add_record book record, str "✅ Contact added!")
            | none =>
              let addressParts := tail.filter (fun a => !a.contains '@')
              let record := if addressParts.isEmpty then record else
                { record with
                    address := some (format_address (pyStrip (pyJoin [' '] addressParts))) }
              (Book_add_record book record, str "✅ Contact added!")

/-- `add_phone_to_contact` (lines 533-545). -/
def add_phone_to_contact (args : List Str) (book : Book) : Book × Str :=
  if args.length < 2 then
    (book, str "😓 The 'addphone' command requires a name and a phone number. For example: 'addphone Ivan 0661234567'")
  else
    let possible_phone := args.getLast?.getD []
    let name := normalize_name (pyJoin [' '] args.dropLast)
    let p := fun r : Record => pyLower r.name == pyLower name
    match book.find? p with
    | none => (book, str "😓 Contact not found.")
    | some record =>
      match Record_add_phone record possible_phone (eraseFirst book p) with
      | (r', some msg) => (setFirst book p r', msg)
      | (r', none) => (setFirst book p r', str "✅ Phone number added!")

/-- `change_contact` (lines 518-531). -/
def change_contact (args : List Str) (book : Book) : Book × Str :=
  if args.length < 3 then
    (book, str "😓 The 'changephone' command requires a name, the old number and the new number. For example: 'changephone Ivan 0661234567 0961234567'")
  else
    let old_phone := args.dropLast.getLast?.getD []
    let new_phone := args.getLast?.getD []
    let name := normalize_name (pyJoin [' '] args.dropLast.dropLast)
    let p := fun r : Record => pyLower r.name == pyLower name
    match book.find? p with
    | none => (book, str "😓 Contact not found.")
    | some record =>
      match Record_edit_phone record old_phone new_phone (eraseFirst book p) with
      | (r', some msg) => (setFirst book p r', msg)
      | (r', none) => (setFirst book p r', str "✅ Phone number updated!")

/-- The forward name-boundary scan `for i in range(lo, hi)` used by the
note/address/email handlers: the first `i` with `lo ≤ i < hi` such that the
normalized join of the first `i` tokens is an existing contact name. -/
def findSplitAux (book : Book) (args : List Str) (hi : Nat) : Nat → Nat → Option Nat
  | 0, _ => none
  | fuel + 1, i =>
    if i < hi then
      if Book_name_exists book (normalize_name (pyJoin [' '] (args.take i))) then some i
      else findSplitAux book args hi fuel (i + 1)
    else none

def findSplit (book : Book) (args : List Str) (hi : Nat) (i : Nat) : Option Nat :=
  findSplitAux book args hi (hi - i) i

/-- The body of `add_note` after name resolution (lines 791-799). -/
def add_note_body (book : Book) (name note_text : Str) : Book × Str :=
  let tags := extract_tags_from_text note_text
  let clean_text := pyStrip (subHashTags note_text)
  let p := fun r : Record => pyLower r.name == pyLower name
  match book.find? p with
  | none => (book, str "😓 Something went wrong: 'NoneType' object has no attribute 'add_note'")
  | some record =>
    match Record_add_note record clean_text tags with
    | Except.error e => (book, e)
    | Except.ok (_, none) =>
      (book, str "😓 Note already exists. Use 'editnote' to modify it.")
    | Except.ok (r', some newNote) =>
      (setFirst book p r', str "✅ Note added with tags: " ++
        (if newNote.tags.isEmpty then str "none" else pyJoin (str ", ") newNote.tags))

/-- `add_note` (lines 777-799): scan `i` over `range(1, len(args))`. -/
def add_note (args : List Str) (book : Book) : Book × Str :=
  if args.length < 2 then
    (book, str "😓 The 'addnote' command requires a name and a note text. You can optionally include tags using #. For example: 'addnote Ivan Meeting at 3:00 PM #urgent'")
  else
    match findSplit book args args.length 1 with
    | none => (book, str "😓 Contact not found.")
    | some i =>
      add_note_body book (normalize_name (pyJoin [' '] (args.take i)))
        (pyJoin [' '] (args.drop i))

/-- `remove_note` the command handler (lines 842-864): scan `i` over
`range(1, len(args) + 1)`.  Note the truthiness test
`if record.remove_note(note_text)` on the returned message string. -/
def remove_note_cmd (args : List Str) (book : Book) : Book × Str :=
  if args.isEmpty then
    (book, str "😓 The 'removenote' command requires a name and optionally the note text.")
  else
    match findSplit book args (args.length + 1) 1 with
    | none => (book, str "🤔 Please provide the contact name and note text to remove.")
    | some i =>
      let name := normalize_name (pyJoin [' '] (args.take i))
      let p := fun r : Record => pyLower r.name == pyLower name
      match book.find? p with
      | none => (book, str "😓 Something went wrong: 'NoneType' object has no attribute 'notes'")
      | some record =>
        let note_text := pyStrip (pyJoin [' '] (args.drop i))
        if note_text.isEmpty then
          if record.notes.isEmpty then
            (book, str "ℹ️ No notes to remove for '" ++ name ++ str "'.")
          else
            (setFirst book p { record with notes := [] },
              str "🗑️ All notes removed for '" ++ name ++ str "'.")
        else
          match Record_remove_note record note_text with
          | (r', res) =>
            if !res.isEmpty then (setFirst book p r', str "✅ Note removed!")
            else (setFirst book p r', str "😓 Note not found.")

/-! Cross-record phone uniqueness. -/

/-- No phone value occurs in both records. -/
def phonesDisjoint (a b : Record) : Prop := ∀ p ∈ a.phones, p ∉ b.phones

/-- The cross-record invariant: any phone belongs to at most one record. -/
def CrossOk (book : Book) : Prop := book.Pairwise phonesDisjoint

instance : DecidablePred (fun b : Book => CrossOk b) := fun b => by
  unfold CrossOk phonesDisjoint
  infer_instance

theorem mem_setFirst {book : Book} {p : Record → Bool} {r' q : Record}
    (h : q ∈ setFirst book p r') : q = r' ∨ q ∈ book := by
  induction book with
  | nil => simp [setFirst] at h
  | cons b bs ih =>
    rw [setFirst] at h
    by_cases hb : p b
    · rw [if_pos hb] at h
      rcases List.mem_cons.mp h with rfl | h'
      · exact Or.inl rfl
      · exact Or.inr (List.mem_cons_of_mem _ h')
    · rw [if_neg hb] at h
      rcases List.mem_cons.mp h with rfl | h'
      · exact Or.inr (List.mem_cons_self _ _)
      · rcases ih h' with h'' | h''
        · exact Or.inl h''
        · exact Or.inr (List.mem_cons_of_mem _ h'')

theorem mem_eraseFirst {book : Book} {p : Record → Bool} {q : Record}
    (h : q ∈ eraseFirst book p) : q ∈ book := by
  induction book with
  | nil => simp [eraseFirst] at h
  | cons b bs ih =>
    rw [eraseFirst] at h
    by_cases hb : p b
    · rw [if_pos hb] at h
      exact List.mem_cons_of_mem _ h
    · rw [if_neg hb] at h
      rcases List.mem_cons.mp h with rfl | h'
      · exact List.mem_cons_self _ _
      · exact List.mem_cons_of_mem _ (ih h')

theorem replaceFirst_mem {l : List Str} {old new x : Str}
    (h : x ∈ replaceFirst l old new) : x ∈ l ∨ x = new := by
  induction l with
  | nil => simp [replaceFirst] at h
  | cons p ps ih =>
    rw [replaceFirst] at h
    by_cases hp : p == old
    · rw [if_pos hp] at h
      rcases List.mem_cons.mp h with rfl | h'
      · exact Or.inr rfl
      · exact Or.inl (List.mem_cons_of_mem _ h')
    · rw [if_neg hp] at h
      rcases List.mem_cons.mp h with rfl | h'
      · exact Or.inl (List.mem_cons_self _ _)
      · rcases ih h' with h'' | h''
        · exact Or.inl (List.mem_cons_of_mem _ h'')
        · exact Or.inr h''

theorem Record_add_phone_ok {self r' : Record} {phone : Str} {others : List Record}
    (h : Record_add_phone self phone others = (r', none)) :
    r' = { self with phones := self.phones ++ [phone] } ∧ phone ∉ self.phones ∧
      ∀ q ∈ others, phone ∉ q.phones := by
  unfold Record_add_phone at h
  cases hv : Phone_init phone with
  | error e => rw [hv] at h; simp at h
  | ok v =>
    rw [hv] at h
    by_cases hdup : self.phones.any (fun p => p == phone)
    · rw [if_pos hdup] at h; simp at h
    · rw [if_neg hdup] at h
      cases hf : others.find? (fun r => r.phones.any (fun p => p == phone)) with
      | some q => rw [hf] at h; simp at h
      | none =>
        rw [hf] at h
        obtain ⟨h1, -⟩ := Prod.mk.injEq .. ▸ h
        refine ⟨h1.symm, ?_, ?_⟩
        · intro hmem
          rw [List.any_eq_true] at hdup
          exact hdup ⟨phone, hmem, by simp⟩
        · intro q hq hmem
          have := List.find?_eq_none.mp hf q hq
          rw [List.any_eq_true] at this
          exact this ⟨phone, hmem, by simp⟩

theorem Record_add_phone_err {self r' : Record} {phone e : Str} {others : List Record}
    (h : Record_add_phone self phone others = (r', some e)) : r' = self := by
  unfold Record_add_phone at h
  cases hv : Phone_init phone with
  | error e' => rw [hv] at h; exact (Prod.mk.injEq .. ▸ h).1.symm
  | ok v =>
    rw [hv] at h
    by_cases hdup : self.phones.any (fun p => p == phone)
    · rw [if_pos hdup] at h; exact (Prod.mk.injEq .. ▸ h).1.symm
    · rw [if_neg hdup] at h
      cases hf : others.find? (fun r => r.phones.any (fun p => p == phone)) with
      | some q => rw [hf] at h; exact (Prod.mk.injEq .. ▸ h).1.symm
      | none => rw [hf] at h; simp at h

theorem Record_edit_phone_ok {self r' : Record} {old_phone new_phone : Str}
    {others : List Record}
    (h : Record_edit_phone self old_phone new_phone others = (r', none)) :
    r' = { self with phones := replaceFirst self.phones old_phone new_phone } ∧
      ∀ q ∈ others, new_phone ∉ q.phones := by
  unfold Record_edit_phone at h
  by_cases hold : (Record_find_phone self old_phone).isNone
  · rw [if_pos hold] at h; simp at h
  · rw [if_neg hold] at h
    cases hv : Phone_init new_phone with
    | error e => rw [hv] at h; simp at h
    | ok v =>
      rw [hv] at h
      cases hf : others.find? (fun r => r.phones.any (fun p => p == new_phone)) with
      | some q => rw [hf] at h; simp at h
      | none =>
        rw [hf] at h
        by_cases hany : self.phones.any (fun p => p == old_phone)
        · rw [if_pos hany] at h
          obtain ⟨h1, -⟩ := Prod.mk.injEq .. ▸ h
          refine ⟨h1.symm, ?_⟩
          intro q hq hmem
          have := List.find?_eq_none.mp hf q hq
          rw [List.any_eq_true] at this
          exact this ⟨new_phone, hmem, by simp⟩
        · rw [if_neg hany] at h; simp at h

theorem Record_edit_phone_err {self r' : Record} {old_phone new_phone e : Str}
    {others : List Record}
    (h : Record_edit_phone self old_phone new_phone others = (r', some e)) :
    r' = self := by
  unfold Record_edit_phone at h
  by_cases hold : (Record_find_phone self old_phone).isNone
  · rw [if_pos hold] at h; exact (Prod.mk.injEq .. ▸ h).1.symm
  · rw [if_neg hold] at h
    cases hv : Phone_init new_phone with
    | error e' => rw [hv] at h; exact (Prod.mk.injEq .. ▸ h).1.symm
    | ok v =>
      rw [hv] at h
      cases hf : others.find? (fun r => r.phones.any (fun p => p == new_phone)) with
      | some q => rw [hf] at h; exact (Prod.mk.injEq .. ▸ h).1.symm
      | none =>
        rw [hf] at h
        by_cases hany : self.phones.any (fun p => p == old_phone)
        · rw [if_pos hany] at h; simp at h
        · rw [if_neg hany] at h; exact (Prod.mk.injEq .. ▸ h).1.symm

theorem addPhonesLoop_ok {book : Book} :
    ∀ (phones : List Str) (r res : Record),
      addPhonesLoop r phones book = Except.ok res →
      ∀ x ∈ res.phones, x ∈ r.phones ∨ ∀ q ∈ book, x ∉ q.phones := by
  intro phones
  induction phones with
  | nil =>
    intro r res h x hx
    rw [addPhonesLoop] at h
    cases h
    exact Or.inl hx
  | cons p ps ih =>
    intro r res h x hx
    rw [addPhonesLoop] at h
    cases hstep : Record_add_phone r p book with
    | mk r1 o =>
      cases o with
      | some msg => rw [hstep] at h; simp at h
      | none =>
        rw [hstep] at h
        obtain ⟨h1, h2, h3⟩ := Record_add_phone_ok hstep
        rcases ih r1 res h x hx with hx1 | hx1
        · rw [h1] at hx1
          simp only [] at hx1
          rcases List.mem_append.mp hx1 with hx2 | hx2
          · exact Or.inl hx2
          · rw [List.mem_singleton] at hx2
            subst hx2
            exact Or.inr h3
        · exact Or.inr hx1

/-- Preservation of the cross-record invariant when the first record
matching `p` is replaced by `r'` whose phones are either old phones of the
replaced record or absent from every other record. -/
theorem crossOk_setFirst {book : Book} {p : Record → Bool} {r r' : Record}
    (hfind : book.find? p = some r)
    (hsub : ∀ x ∈ r'.phones, x ∈ r.phones ∨ ∀ q ∈ eraseFirst book p, x ∉ q.phones)
    (h : CrossOk book) : CrossOk (setFirst book p r') := by
  induction book with
  | nil => simp at hfind
  | cons b bs ih =>
    rw [CrossOk, List.pairwise_cons] at h
    obtain ⟨hb_rel, htail⟩ := h
    by_cases hb : p b
    · have hr : r = b := by
        rw [List.find?_cons_of_pos _ hb] at hfind
        exact (Option.some.injEq .. ▸ hfind).symm
      subst hr
      rw [setFirst, if_pos hb]
      rw [CrossOk, List.pairwise_cons]
      refine ⟨?_, htail⟩
      intro q hq x hx
      rcases hsub x hx with hx1 | hx1
      · exact hb_rel q hq x hx1
      · rw [eraseFirst, if_pos hb] at hx1
        exact hx1 q hq
    · rw [List.find?_cons_of_neg _ hb] at hfind
      rw [setFirst, if_neg hb]
      rw [CrossOk, List.pairwise_cons]
      have hsub' : ∀ x ∈ r'.phones, x ∈ r.phones ∨ ∀ q ∈ eraseFirst bs p, x ∉ q.phones := by
        intro x hx
        rcases hsub x hx with hx1 | hx1
        · exact Or.inl hx1
        · rw [eraseFirst, if_neg hb] at hx1
          exact Or.inr fun q hq => hx1 q (List.mem_cons_of_mem _ hq)
      refine ⟨?_, ih hfind hsub' htail⟩
      intro q hq x hx
      rcases mem_setFirst hq with rfl | hq'
      · intro hx'
        rcases hsub x hx' with hx1 | hx1
        · exact hb_rel r (List.mem_of_find?_eq_some hfind) x hx hx1
        · rw [eraseFirst, if_neg hb] at hx1
          exact hx1 b (List.mem_cons_self _ _) hx
      · exact hb_rel q hq' x hx

/-- Appending a record whose phones occur in no existing record preserves
the invariant. -/
theorem crossOk_append {book : Book} {rec : Record}
    (h : CrossOk book) (hfree : ∀ x ∈ rec.phones, ∀ q ∈ book, x ∉ q.phones) :
    CrossOk (book ++ [rec]) := by
  rw [CrossOk, List.pairwise_append]
  refine ⟨h, List.pairwise_singleton _ _, ?_⟩
  intro a ha b hb
  rw [List.mem_singleton] at hb
  subst hb
  intro x hx hx'
  exact hfree x hx' a ha hx

theorem Book_add_record_fresh {book : Book} {r : Record}
    (h : Book_name_exists book r.name = false) :
    Book_add_record book r = book ++ [r] := by
  unfold Book_add_record
  rw [if_neg]
  intro hcon
  rw [List.any_eq_true] at hcon
  obtain ⟨q, hq, hqe⟩ := hcon
  rw [Book_name_exists] at h
  have : book.any (fun q => pyLower r.name == pyLower q.name) = true := by
    rw [List.any_eq_true]
    refine ⟨q, hq, ?_⟩
    rw [beq_iff_eq] at hqe ⊢
    rw [hqe]
  rw [h] at this
  cases this

theorem addPhonesLoop_name {book : Book} :
    ∀ (phones : List Str) (r res : Record),
      addPhonesLoop r phones book = Except.ok res → res.name = r.name := by
  intro phones
  induction phones with
  | nil =>
    intro r res h
    rw [addPhonesLoop] at h
    cases h
    rfl
  | cons p ps ih =>
    intro r res h
    rw [addPhonesLoop] at h
    cases hstep : Record_add_phone r p book with
    | mk r1 o =>
      cases o with
      | some msg => rw [hstep] at h; simp at h
      | none =>
        rw [hstep] at h
        rw [ih r1 res h, (Record_add_phone_ok hstep).1]

theorem add_contact_preserves (args : List Str) (book : Book) (h : CrossOk book) :
    CrossOk (add_contact args book).1 := by
  unfold add_contact
  split
  · exact h
  split
  · exact h
  rename_i idx hidx
  split
  · exact h
  dsimp only []
  split
  · exact h
  rename_i hname
  split
  · exact h
  rename_i record hloop
  have hfree : ∀ x ∈ record.phones, ∀ q ∈ book, x ∉ q.phones := by
    intro x hx
    rcases addPhonesLoop_ok _ _ _ hloop x hx with hx1 | hx1
    · simp [Record_init] at hx1
    · exact hx1
  have hrname : record.name = normalize_name (pyJoin [' '] (args.take idx)) :=
    addPhonesLoop_name _ _ _ hloop
  have hfresh : ∀ rec : Record,
      rec.phones = record.phones → rec.name = record.name → CrossOk (Book_add_record book rec) := by
    intro rec hp hn
    rw [Book_add_record_fresh]
    · refine crossOk_append h ?_
      rw [hp]
      exact hfree
    · rw [hn, hrname]
      rw [Bool.eq_false_iff]
      exact hname
  split
  · rename_i em hem
    split
    · exact h
    split
    · exact hfresh _ rfl rfl
    · exact hfresh _ rfl rfl
  · split
    · exact hfresh _ rfl rfl
    · exact hfresh _ rfl rfl

theorem add_phone_to_contact_preserves (args : List Str) (book : Book)
    (h : CrossOk book) : CrossOk (add_phone_to_contact args book).1 := by
  unfold add_phone_to_contact
  split
  · exact h
  dsimp only []
  split
  · exact h
  rename_i record hfind
  split
  · rename_i r' msg hstep
    have := Record_add_phone_err hstep
    subst this
    exact crossOk_setFirst hfind (fun x hx => Or.inl hx) h
  · rename_i r' hstep
    obtain ⟨h1, -, h3⟩ := Record_add_phone_ok hstep
    refine crossOk_setFirst hfind ?_ h
    intro x hx
    rw [h1] at hx
    simp only [] at hx
    rcases List.mem_append.mp hx with hx1 | hx1
    · exact Or.inl hx1
    · rw [List.mem_singleton] at hx1
      subst hx1
      exact Or.inr h3

theorem change_contact_preserves (args : List Str) (book : Book)
    (h : CrossOk book) : CrossOk (change_contact args book).1 := by
  unfold change_contact
  split
  · exact h
  dsimp only []
  split
  · exact h
  rename_i record hfind
  split
  · rename_i r' msg hstep
    have := Record_edit_phone_err hstep
    subst this
    exact crossOk_setFirst hfind (fun x hx => Or.inl hx) h
  · rename_i r' hstep
    obtain ⟨h1, h3⟩ := Record_edit_phone_ok hstep
    refine crossOk_setFirst hfind ?_ h
    intro x hx
    rw [h1] at hx
    simp only [] at hx
    rcases replaceFirst_mem hx with hx1 | hx1
    · exact Or.inl hx1
    · subst hx1
      exact Or.inr h3

/-- The mutating phone operations, as invoked from the command loop. -/
inductive Op where
  | addContact (args : List Str)
  | addPhone (args : List Str)
  | changePhone (args : List Str)

/-- Run one command against the book, keeping the resulting book. -/
def runOp (book : Book) : Op → Book
  | Op.addContact args => (add_contact args book).1
  | Op.addPhone args => (add_phone_to_contact args book).1
  | Op.changePhone args => (change_contact args book).1

/-- The book built by the scenario's first step: `addcontact ivan petrov
0987654321` on the empty collection. -/
def scenarioBook : Book := (add_contact [str "ivan", str "petrov", str "0987654321"] []).1

/-- C1: cross-record phone uniqueness is an invariant of the collection
under every sequence of `add_contact`, `add_phone` and `edit_phone`
commands; and adding a contact whose phone already belongs to an existing
record fails with a conflict naming the owner and inserts nothing (the
spec's scenario: after adding "ivan petrov" with phone 0987654321, adding
"Ivan" with the same phone fails naming "Ivan Petrov" and leaves the book
unchanged). -/
theorem cross_record_phone_uniqueness (ops : List Op) (book : Book) (h : CrossOk book) :
    CrossOk (ops.foldl runOp book) ∧
    (add_contact [str "ivan", str "petrov", str "0987654321"] ([] : Book)).2 =
      str "✅ Contact added!" ∧
    add_contact [str "Ivan", str "0987654321"] scenarioBook =
      (scenarioBook, str "😓 The number '0987654321' already belongs to 'Ivan Petrov'.") := by
  refine ⟨?_, by decide, by decide⟩
  induction ops generalizing book with
  | nil => exact h
  | cons op ops ih =>
    rw [List.foldl_cons]
    refine ih _ ?_
    cases op with
    | addContact args => exact add_contact_preserves args book h
    | addPhone args => exact add_phone_to_contact_preserves args book h
    | changePhone args => exact change_contact_preserves args book h

theorem cross_record_phone_uniqueness_witness :
    CrossOk (([Op.addContact [str "ivan", str "petrov", str "0987654321"],
        Op.addPhone [str "Ivan", str "Petrov", str "0501234567"]] : List Op).foldl runOp
        ([] : Book)) ∧
    (add_contact [str "ivan", str "petrov", str "0987654321"] ([] : Book)).2 =
      str "✅ Contact added!" ∧
    add_contact [str "Ivan", str "0987654321"] scenarioBook =
      (scenarioBook, str "😓 The number '0987654321' already belongs to 'Ivan Petrov'.") :=
  cross_record_phone_uniqueness _ ([] : Book) List.Pairwise.nil

/-! Per-record invariants: distinct phones, distinct notes. -/

/-- No two notes of the list are equal in the sense of `Note.__eq__`. -/
def NotesOk (notes : List Note) : Prop :=
  List.Pairwise (fun a b => ¬ Note_eq a b) notes

instance : DecidablePred NotesOk := fun notes => by
  unfold NotesOk
  infer_instance

theorem Note_eq_symm {a b : Note} (h : Note_eq a b) : Note_eq b a := by
  rw [Note_eq, Bool.and_eq_true] at h ⊢
  obtain ⟨h1, h2⟩ := h
  rw [beq_iff_eq] at h1
  rw [tagSetEq, Bool.and_eq_true] at h2
  refine ⟨by rw [beq_iff_eq, h1], ?_⟩
  rw [tagSetEq, Bool.and_eq_true]
  exact ⟨h2.2, h2.1⟩

theorem replaceFirst_nodup {l : List Str} {old new : Str} (hnd : l.Nodup)
    (hg : new ∉ l ∨ new = old) : (replaceFirst l old new).Nodup := by
  induction l with
  | nil => exact List.Pairwise.nil
  | cons p ps ih =>
    rw [List.nodup_cons] at hnd
    obtain ⟨hp, hps⟩ := hnd
    rw [replaceFirst]
    by_cases hpo : p == old
    · rw [if_pos hpo]
      rw [List.nodup_cons]
      refine ⟨?_, hps⟩
      rcases hg with hg | hg
      · intro hcon
        exact hg (List.mem_cons_of_mem _ hcon)
      · rw [beq_iff_eq] at hpo
        rw [hg, ← hpo]
        exact hp
    · rw [if_neg hpo]
      rw [List.nodup_cons]
      have hg' : new ∉ ps ∨ new = old := by
        rcases hg with hg | hg
        · exact Or.inl fun hcon => hg (List.mem_cons_of_mem _ hcon)
        · exact Or.inr hg
      refine ⟨?_, ih hps hg'⟩
      intro hcon
      rcases replaceFirst_mem hcon with hc | hc
      · exact hp hc
      · subst hc
        rcases hg with hg | hg
        · exact hg (List.mem_cons_self _ _)
        · rw [hg] at hpo
          exact hpo (by simp)

theorem pairwise_set {l : List Note} {a : Note}
    (h : List.Pairwise (fun x y => ¬ Note_eq x y) l)
    (hg : ∀ m ∈ l, ¬ Note_eq m a) :
    ∀ i, List.Pairwise (fun x y => ¬ Note_eq x y) (l.set i a) := by
  induction l with
  | nil => intro i; simp
  | cons b bs ih =>
    rw [List.pairwise_cons] at h
    obtain ⟨hb, htail⟩ := h
    intro i
    cases i with
    | zero =>
      rw [List.set_cons_zero, List.pairwise_cons]
      refine ⟨?_, htail⟩
      intro q hq hcon
      exact hg q (List.mem_cons_of_mem _ hq) (Note_eq_symm hcon)
    | succ i =>
      rw [List.set_cons_succ, List.pairwise_cons]
      refine ⟨?_, ih htail (fun m hm => hg m (List.mem_cons_of_mem _ hm)) i⟩
      intro q hq
      rcases List.mem_or_eq_of_mem_set hq with hq' | rfl
      · exact hb q hq'
      · exact hg b (List.mem_cons_self _ _)

/-- C2 (amended): the per-record invariants are preserved by the `Record`
mutations, unconditionally for `add_phone` and `add_note`, and for
`edit_phone` / `edit_note` under the proviso that the incoming value does
not duplicate a distinct existing entry of the same record (the unamended
claim fails: see the counterexample). -/
theorem record_mutations_preserve_invariants (r : Record) (others : List Record)
    (ph old new t oldT newT : Str) (tags : List Str) (n : Note) :
    (r.phones.Nodup → ((Record_add_phone r ph others).1).phones.Nodup) ∧
    (r.phones.Nodup → (new ∉ r.phones ∨ new = old) →
      ((Record_edit_phone r old new others).1).phones.Nodup) ∧
    (∀ r' o, Record_add_note r t tags = Except.ok (r', o) →
      NotesOk r.notes → NotesOk r'.notes) ∧
    (∀ r' m, Record_edit_note r oldT newT = Except.ok (r', m) →
      Note_init (pyStrip (subHashTags newT)) (findHashTags newT) = Except.ok n →
      (∀ q ∈ r.notes, ¬ Note_eq q n) → NotesOk r.notes → NotesOk r'.notes) := by
  refine ⟨?_, ?_, ?_, ?_⟩
  · intro hnd
    cases hres : Record_add_phone r ph others with
    | mk r' o =>
      cases o with
      | some e =>
        rw [Record_add_phone_err hres]
        exact hnd
      | none =>
        obtain ⟨h1, h2, -⟩ := Record_add_phone_ok hres
        rw [h1]
        simp only []
        rw [List.nodup_append]
        exact ⟨hnd, List.nodup_singleton _, by simpa using h2⟩
  · intro hnd hg
    cases hres : Record_edit_phone r old new others with
    | mk r' o =>
      cases o with
      | some e =>
        rw [Record_edit_phone_err hres]
        exact hnd
      | none =>
        obtain ⟨h1, -⟩ := Record_edit_phone_ok hres
        rw [h1]
        simp only []
        exact replaceFirst_nodup hnd hg
  · intro r' o hres hok
    unfold Record_add_note at hres
    cases hv : Note_init t tags with
    | error e => rw [hv] at hres; simp at hres
    | ok newNote =>
      rw [hv] at hres
      dsimp only [] at hres
      by_cases hdup : r.notes.any
          (fun ex => pyLower (pyStrip ex.text) == pyLower (pyStrip newNote.text))
      · rw [if_pos hdup] at hres
        cases hres
        exact hok
      · rw [if_neg hdup] at hres
        cases hres
        simp only []
        rw [NotesOk, List.pairwise_append]
        refine ⟨hok, List.pairwise_singleton _ _, ?_⟩
        intro a ha b hb
        rw [List.mem_singleton] at hb
        subst hb
        intro hcon
        rw [Note_eq, Bool.and_eq_true, beq_iff_eq] at hcon
        rw [List.any_eq_true] at hdup
        exact hdup ⟨a, ha, by rw [hcon.1]; simp⟩
  · intro r' m hres hn hg hok
    unfold Record_edit_note at hres
    dsimp only [] at hres
    cases hidx : r.notes.findIdx?
        (fun note => pyLower (pyStrip note.text) == pyLower (pyStrip oldT)) with
    | none =>
      rw [hidx] at hres
      cases hres
      exact hok
    | some i =>
      rw [hidx, hn] at hres
      cases hres
      exact pairwise_set hok hg i

/-- A record with two distinct valid phones, used to exhibit the
`edit_phone` duplicate. -/
def recTwoPhones : Record :=
  { name := str "Ivan", phones := [str "0501234567", str "0671234567"],
    birthday := none, address := none, email := none, notes := [] }

/-- C2 counterexample: `edit_phone` can leave the record with two equal
phones: editing 0501234567 into 0671234567, which the record already
holds, succeeds and duplicates it. -/
theorem record_invariant_counterexample :
    recTwoPhones.phones.Nodup ∧
    (Record_edit_phone recTwoPhones (str "0501234567") (str "0671234567") []).2 = none ∧
    ¬ ((Record_edit_phone recTwoPhones (str "0501234567") (str "0671234567") []).1).phones.Nodup := by
  decide

/-- A record with one phone and one note, a generic witness instance. -/
def recOnePhoneOneNote : Record :=
  { name := str "Ivan", phones := [str "0501234567"], birthday := none,
    address := none, email := none, notes := [{ text := str "A", tags := [] }] }

theorem record_mutations_preserve_invariants_witness :
    ((Record_add_phone recOnePhoneOneNote (str "0671234567") []).1).phones.Nodup ∧
    ((Record_edit_phone recOnePhoneOneNote (str "0501234567") (str "0961234567") []).1).phones.Nodup ∧
    NotesOk (({ recOnePhoneOneNote with
      notes := recOnePhoneOneNote.notes ++ [{ text := str "B", tags := [] }] } : Record)).notes ∧
    NotesOk (({ recOnePhoneOneNote with
      notes := [{ text := str "C", tags := [] }] } : Record)).notes := by
  obtain ⟨h1, h2, h3, h4⟩ := record_mutations_preserve_invariants recOnePhoneOneNote []
    (str "0671234567") (str "0501234567") (str "0961234567") (str "B") (str "a")
    (str "C") [] { text := str "C", tags := [] }
  refine ⟨h1 (by decide), h2 (by decide) (by decide), ?_, ?_⟩
  · exact h3 ({ recOnePhoneOneNote with
      notes := recOnePhoneOneNote.notes ++ [{ text := str "B", tags := [] }] } : Record)
      (some { text := str "B", tags := [] }) (by decide) (by decide)
  · exact h4 ({ recOnePhoneOneNote with
      notes := [{ text := str "C", tags := [] }] } : Record)
      (str "✅ Note edited!") (by decide) (by decide) (by decide) (by decide)

/-- A 10-character candidate phone: the whitelisted prefix 050 followed by
seven Arabic-Indic digits (U+0663), which Python's `isdigit` accepts. -/
def unicodePhone : Str := str "050٣٣٣٣٣٣٣"

/-- C3 counterexample: the validator accepts a string that is not made of
ASCII digits, so it does not fail on every string outside the claimed set. -/
theorem phone_validator_counterexample :
    Phone_init unicodePhone = Except.ok unicodePhone ∧
    ¬ unicodePhone.all Char.isDigit := by
  decide

theorem Phone_init_ok_iff_witness :
    Phone_init (str "0501234567") = Except.ok (str "0501234567") :=
  ((Phone_init_ok_iff (str "0501234567")).2).mpr (by decide)

/-! Name-boundary resolution: the scan accepts the least valid split. -/

theorem findSplitAux_some_iff (book : Book) (args : List Str) (hi : Nat) :
    ∀ (fuel k : Nat), hi ≤ k + fuel → ∀ i,
      (findSplitAux book args hi fuel k = some i ↔
        (k ≤ i ∧ i < hi ∧
          Book_name_exists book (normalize_name (pyJoin [' '] (args.take i))) = true ∧
          ∀ j, k ≤ j → j < i →
            ¬ Book_name_exists book (normalize_name (pyJoin [' '] (args.take j))) = true)) := by
  intro fuel
  induction fuel with
  | zero =>
    intro k hk i
    simp only [findSplitAux]
    constructor
    · intro h; cases h
    · rintro ⟨h1, h2, -, -⟩; omega
  | succ fuel ih =>
    intro k hk i
    simp only [findSplitAux]
    by_cases hklt : k < hi
    · rw [if_pos hklt]
      by_cases hP : Book_name_exists book (normalize_name (pyJoin [' '] (args.take k))) = true
      · rw [if_pos hP]
        constructor
        · intro h
          have hki : k = i := Option.some.inj h
          subst hki
          exact ⟨Nat.le_refl _, hklt, hP, fun j hj1 hj2 => absurd hj2 (by omega)⟩
        · rintro ⟨h1, h2, h3, h4⟩
          have hki : k = i := by
            by_contra hne
            exact h4 k (Nat.le_refl _) (by omega) hP
          rw [hki]
      · rw [if_neg hP]
        rw [ih (k + 1) (by omega) i]
        constructor
        · rintro ⟨h1, h2, h3, h4⟩
          refine ⟨by omega, h2, h3, fun j hj1 hj2 => ?_⟩
          by_cases hj : j = k
          · subst hj; exact hP
          · exact h4 j (by omega) hj2
        · rintro ⟨h1, h2, h3, h4⟩
          have hik : i ≠ k := fun he => hP (he ▸ h3)
          exact ⟨by omega, h2, h3, fun j hj1 hj2 => h4 j (by omega) hj2⟩
    · rw [if_neg hklt]
      constructor
      · intro h; cases h
      · rintro ⟨h1, h2, -, -⟩; omega

theorem findSplit_some_iff (book : Book) (args : List Str) (hi k i : Nat) :
    findSplit book args hi k = some i ↔
      (k ≤ i ∧ i < hi ∧
        Book_name_exists book (normalize_name (pyJoin [' '] (args.take i))) = true ∧
        ∀ j, k ≤ j → j < i →
          ¬ Book_name_exists book (normalize_name (pyJoin [' '] (args.take j))) = true) :=
  findSplitAux_some_iff book args hi (hi - k) k (by omega) i

/-- C6: the forward name scan of `add_note` accepts the first (shortest)
index `i ≥ 1` whose normalized token prefix is an existing contact name,
binds that contact and treats the remaining tokens as the note operand. -/
theorem add_note_shortest_prefix (args : List Str) (book : Book) (i : Nat)
    (hres : findSplit book args args.length 1 = some i) :
    1 ≤ i ∧ i < args.length ∧
    Book_name_exists book (normalize_name (pyJoin [' '] (args.take i))) = true ∧
    (∀ j, 1 ≤ j → j < i →
      ¬ Book_name_exists book (normalize_name (pyJoin [' '] (args.take j))) = true) ∧
    add_note args book =
      add_note_body book (normalize_name (pyJoin [' '] (args.take i)))
        (pyJoin [' '] (args.drop i)) := by
  obtain ⟨h1, h2, h3, h4⟩ := (findSplit_some_iff book args args.length 1 i).mp hres
  refine ⟨h1, h2, h3, h4, ?_⟩
  unfold add_note
  rw [if_neg (by omega), hres]

/-- The two-contact book in which "Ivan" is a normalized prefix of
"Ivan Petrov"; the latter owns one note. -/
def bookIvanPair : Book :=
  [Record_init (str "Ivan"),
   { Record_init (str "Ivan Petrov") with notes := [{ text := str "Call mom", tags := [] }] }]

theorem add_note_shortest_prefix_witness :
    1 ≤ 1 ∧ 1 < ([str "Ivan", str "Petrov", str "hello"] : List Str).length ∧
    Book_name_exists bookIvanPair
      (normalize_name (pyJoin [' '] (([str "Ivan", str "Petrov", str "hello"] : List Str).take 1))) = true ∧
    (∀ j, 1 ≤ j → j < 1 →
      ¬ Book_name_exists bookIvanPair
        (normalize_name (pyJoin [' '] (([str "Ivan", str "Petrov", str "hello"] : List Str).take j))) = true) ∧
    add_note [str "Ivan", str "Petrov", str "hello"] bookIvanPair =
      add_note_body bookIvanPair
        (normalize_name (pyJoin [' '] (([str "Ivan", str "Petrov", str "hello"] : List Str).take 1)))
        (pyJoin [' '] (([str "Ivan", str "Petrov", str "hello"] : List Str).drop 1)) :=
  add_note_shortest_prefix [str "Ivan", str "Petrov", str "hello"] bookIvanPair 1 (by decide)

/-- C10 counterexample: invoking removenote with exactly the tokens of the
contact name "Ivan Petrov" does not clear that record's notes when the
shorter prefix "Ivan" names another contact: the scan binds "Ivan", treats
"Petrov" as note text, finds no such note, and (by the truthiness slip)
reports the note as removed; "Ivan Petrov" keeps its note. -/
theorem remove_note_name_only_counterexample :
    remove_note_cmd [str "Ivan", str "Petrov"] bookIvanPair =
      (bookIvanPair, str "✅ Note removed!") ∧
    ¬ ∃ r ∈ (remove_note_cmd [str "Ivan", str "Petrov"] bookIvanPair).1,
        pyLower r.name = pyLower (str "Ivan Petrov") ∧ r.notes = [] := by
  decide

/-- C10 (amended): invoking removenote with only the contact's name clears
every note of that record and reports success, and reports nothing to
remove when there are none, provided no proper token prefix of the
invocation resolves to an existing contact. -/
theorem remove_note_name_only (args : List Str) (book : Book) (record : Record)
    (hne : args ≠ [])
    (hmin : ∀ j, 1 ≤ j → j < args.length →
      ¬ Book_name_exists book (normalize_name (pyJoin [' '] (args.take j))) = true)
    (hex : Book_name_exists book (normalize_name (pyJoin [' '] args)) = true)
    (hfind : book.find?
        (fun r => pyLower r.name == pyLower (normalize_name (pyJoin [' '] args))) =
      some record) :
    remove_note_cmd args book =
      if record.notes.isEmpty then
        (book, str "ℹ️ No notes to remove for '" ++ normalize_name (pyJoin [' '] args) ++ str "'.")
      else
        (setFirst book
            (fun r => pyLower r.name == pyLower (normalize_name (pyJoin [' '] args)))
            { record with notes := [] },
          str "🗑️ All notes removed for '" ++ normalize_name (pyJoin [' '] args) ++ str "'.") := by
  have hlen : 1 ≤ args.length := by
    cases args with
    | nil => exact absurd rfl hne
    | cons a as => simp
  have hscan : findSplit book args (args.length + 1) 1 = some args.length := by
    rw [findSplit_some_iff]
    refine ⟨hlen, by omega, ?_, ?_⟩
    · rw [List.take_length]
      exact hex
    · intro j hj1 hj2
      exact hmin j hj1 hj2
  unfold remove_note_cmd
  rw [if_neg (by simpa using hne), hscan]
  dsimp only []
  rw [List.take_length, List.drop_length, hfind]
  dsimp only []
  have hempty : (pyStrip (pyJoin [' '] ([] : List Str))).isEmpty = true := by decide
  rw [if_pos hempty]

theorem remove_note_name_only_witness :
    remove_note_cmd [str "ivan", str "petrov"]
        [({ Record_init (str "Ivan Petrov") with
            notes := [{ text := str "Call mom", tags := [] }] } : Record)] =
      (if ({ Record_init (str "Ivan Petrov") with
            notes := [{ text := str "Call mom", tags := [] }] } : Record).notes.isEmpty then
        ([({ Record_init (str "Ivan Petrov") with
            notes := [{ text := str "Call mom", tags := [] }] } : Record)],
          str "ℹ️ No notes to remove for '" ++
            normalize_name (pyJoin [' '] [str "ivan", str "petrov"]) ++ str "'.")
      else
        (setFirst [({ Record_init (str "Ivan Petrov") with
              notes := [{ text := str "Call mom", tags := [] }] } : Record)]
            (fun r => pyLower r.name ==
              pyLower (normalize_name (pyJoin [' '] [str "ivan", str "petrov"])))
            ({ ({ Record_init (str "Ivan Petrov") with
                notes := [{ text := str "Call mom", tags := [] }] } : Record) with
              notes := [] }),
          str "🗑️ All notes removed for '" ++
            normalize_name (pyJoin [' '] [str "ivan", str "petrov"]) ++ str "'.")) :=
  remove_note_name_only [str "ivan", str "petrov"]
    [({ Record_init (str "Ivan Petrov") with
        notes := [{ text := str "Call mom", tags := [] }] } : Record)]
    ({ Record_init (str "Ivan Petrov") with
        notes := [{ text := str "Call mom", tags := [] }] } : Record)
    (by decide)
    (by
      intro j h1 h2
      have hj : j = 1 := by
        simp only [List.length_cons, List.length_nil] at h2
        omega
      subst hj
      decide)
    (by decide) (by decide)

/-- The one-record book used for the remove-note truthiness bug. -/
def bookIvanMeeting : Book :=
  [{ Record_init (str "Ivan") with notes := [{ text := str "Meeting", tags := [] }] }]

/-- C4: `Record.remove_note` itself reports "Note not found." and leaves the
record unchanged when no note matches, but the command handler tests the
returned message string for truthiness, so the handler reports
"Note removed!" even though nothing matched and nothing changed. -/
theorem remove_note_not_found_report :
    Record_remove_note
        ({ Record_init (str "Ivan") with
          notes := [{ text := str "Meeting", tags := [] }] } : Record) (str "Dinner") =
      (({ Record_init (str "Ivan") with
          notes := [{ text := str "Meeting", tags := [] }] } : Record),
        str "😓 Note not found.") ∧
    remove_note_cmd [str "Ivan", str "Dinner"] bookIvanMeeting =
      (bookIvanMeeting, str "✅ Note removed!") := by
  decide

/-! Duplicate-text note additions. -/

theorem foldlM_add_tag_ok (tags : List Str) :
    ∀ n : Note, (∀ t ∈ tags, tagPatternMatch (pyLower (lstripHash t)) = true) →
      ∃ m : Note, tags.foldlM Note_add_tag n = Except.ok m ∧ m.text = n.text := by
  induction tags with
  | nil => intro n _; exact ⟨n, rfl, rfl⟩
  | cons t ts ih =>
    intro n htags
    have hval := htags t (List.mem_cons_self _ _)
    have hstep : Note_add_tag n t =
        Except.ok { n with tags := setInsert n.tags (pyLower (lstripHash t)) } := by
      unfold Note_add_tag
      rw [if_neg (by rw [hval]; intro hcon; exact hcon rfl)]
    obtain ⟨m, hm, hmt⟩ := ih { n with tags := setInsert n.tags (pyLower (lstripHash t)) }
      (fun u hu => htags u (List.mem_cons_of_mem _ hu))
    refine ⟨m, ?_, hmt⟩
    rw [List.foldlM_cons, hstep]
    exact hm

/-- C7 (amended): adding a note whose trimmed text case-insensitively equals
an existing note's trimmed text is a no-op reported as a duplicate,
provided every supplied tag is valid; the record, its note count and the
existing note's tags are unchanged. -/
theorem add_note_duplicate_noop (r : Record) (text : Str) (tags : List Str)
    (htags : ∀ t ∈ tags, tagPatternMatch (pyLower (lstripHash t)) = true)
    (hdup : r.notes.any
      (fun ex => pyLower (pyStrip ex.text) == pyLower (pyStrip (pyStrip text))) = true) :
    Record_add_note r text tags = Except.ok (r, none) := by
  obtain ⟨m, hm, hmt⟩ := foldlM_add_tag_ok tags { text := pyStrip text, tags := [] } htags
  unfold Record_add_note Note_init
  rw [hm]
  dsimp only []
  rw [if_pos (by rw [hmt]; exact hdup)]

/-- The record holding the note "Meeting" tagged urgent. -/
def recMeetingUrgent : Record :=
  { Record_init (str "Ivan") with notes := [{ text := str "Meeting", tags := [str "urgent"] }] }

/-- A 31-character tag, which fails the 1-30 character tag pattern. -/
def longTag : Str := str "aaaaaaaaaaaaaaaaaaaaaaaaaaaaaaa"

/-- C7 counterexample: a duplicate-text note addition carrying an invalid
tag is not reported as an already-exists duplicate: the tag validation
raises first, so the reported outcome depends on the tags supplied. -/
theorem add_note_duplicate_counterexample :
    recMeetingUrgent.notes.any
      (fun ex => pyLower (pyStrip ex.text) ==
        pyLower (pyStrip (pyStrip (str "Meeting")))) = true ∧
    Record_add_note recMeetingUrgent (str "Meeting") [longTag] =
      Except.error (str "😓 Invalid tag: '" ++ longTag ++
        str "'. Only letters, digits, and underscores are allowed (1–30 chars).") := by
  decide

theorem add_note_duplicate_noop_witness :
    Record_add_note recMeetingUrgent (str "  MEETING ") [str "#Urgent", str "new_tag"] =
      Except.ok (recMeetingUrgent, none) :=
  add_note_duplicate_noop recMeetingUrgent (str "  MEETING ")
    [str "#Urgent", str "new_tag"] (by decide) (by decide)

/-! Dates and the birthday scheduler (`get_upcoming_birthdays`,
lines 294-315).  Python `datetime.date` values are modelled as
year/month/day triples in the proleptic Gregorian calendar; constructing an
invalid date (`date.replace` raising `ValueError`) yields `none`. -/

structure Date where
  year : Nat
  month : Nat
  day : Nat
deriving DecidableEq, Repr

def isLeap (y : Nat) : Bool := y % 4 == 0 && (y % 100 != 0 || y % 400 == 0)

def daysInMonth (y m : Nat) : Nat :=
  if m = 2 then (if isLeap y then 29 else 28)
  else if m = 4 ∨ m = 6 ∨ m = 9 ∨ m = 11 then 30
  else 31

def dateOk (y m d : Nat) : Bool :=
  decide (1 ≤ y) && decide (1 ≤ m) && decide (m ≤ 12) && decide (1 ≤ d) &&
    decide (d ≤ daysInMonth y m)

/-- Date construction; `none` models the `ValueError` of an invalid date. -/
def mkDate (y m d : Nat) : Option Date :=
  if dateOk y m d then some ⟨y, m, d⟩ else none

/-- Date comparison; on valid dates this lexicographic order agrees with
Python's calendar order. -/
def dateLt (a b : Date) : Prop :=
  a.year < b.year ∨ (a.year = b.year ∧
    (a.month < b.month ∨ (a.month = b.month ∧ a.day < b.day)))

def dateLe (a b : Date) : Prop :=
  a.year < b.year ∨ (a.year = b.year ∧
    (a.month < b.month ∨ (a.month = b.month ∧ a.day ≤ b.day)))

instance : DecidablePred (fun p : Date × Date => dateLt p.1 p.2) := fun p => by
  unfold dateLt; infer_instance

instance (a b : Date) : Decidable (dateLt a b) := by
  unfold dateLt; infer_instance

instance (a b : Date) : Decidable (dateLe a b) := by
  unfold dateLe; infer_instance

/-- The day after `d` (valid dates in, valid dates out). -/
def nextDay (d : Date) : Date :=
  if d.day < daysInMonth d.year d.month then ⟨d.year, d.month, d.day + 1⟩
  else if d.month < 12 then ⟨d.year, d.month + 1, 1⟩
  else ⟨d.year + 1, 1, 1⟩

/-- Python `d + timedelta(days = n)`. -/
def addDays (d : Date) : Nat → Date
  | 0 => d
  | n + 1 => addDays (nextDay d) n

def daysBeforeYear (y : Nat) : Nat :=
  365 * (y - 1) + (y - 1) / 4 - (y - 1) / 100 + (y - 1) / 400

def daysBeforeMonth (y m : Nat) : Nat :=
  ((List.range (m - 1)).map (fun k => daysInMonth y (k + 1))).sum

/-- Python `date.toordinal`: day 1 is 1 January of year 1. -/
def toOrdinal (d : Date) : Nat :=
  daysBeforeYear d.year + daysBeforeMonth d.year d.month + d.day

/-- Python `date.weekday`: Monday is 0, Sunday is 6; 1.1.1 was a Monday. -/
def weekday (d : Date) : Nat := (toOrdinal d + 6) % 7

/-- Numeric string to natural number (for parsed date fields). -/
def strToNat (s : Str) : Nat := s.foldl (fun n c => 10 * n + (c.toNat - 48)) 0

/-- Python `datetime.strptime(s, "%d.%m.%Y").date()`: one to two digits for
day and month, exactly four digits for the year, dot-separated, and the
result must be a real calendar date; `none` models the `ValueError`. -/
def parseDMY (s : Str) : Option Date :=
  match s.splitOn '.' with
  | [ds, ms, ys] =>
    if 1 ≤ ds.length ∧ ds.length ≤ 2 ∧ ds.all Char.isDigit ∧
        1 ≤ ms.length ∧ ms.length ≤ 2 ∧ ms.all Char.isDigit ∧
        ys.length = 4 ∧ ys.all Char.isDigit then
      mkDate (strToNat ys) (strToNat ms) (strToNat ds)
    else none
  | _ => none

def natToStr (n : Nat) : Str := (Nat.repr n).data

def pad2 (n : Nat) : Str := if n < 10 then '0' :: natToStr n else natToStr n

def pad4 (n : Nat) : Str :=
  List.replicate (4 - (natToStr n).length) '0' ++ natToStr n

/-- Python `strftime("%d.%m.%Y")`. -/
def fmtDate (d : Date) : Str := pad2 d.day ++ str "." ++ pad2 d.month ++ str "." ++ pad4 d.year

/-- Lines 303-305: the birthday with the year replaced by the current year,
advanced one year when that date has passed; `none` when the replacement is
not a real date (29 February in a non-leap year). -/
def nextOccurrence (today bd : Date) : Option Date :=
  match mkDate today.year bd.month bd.day with
  | none => none
  | some bty =>
    if dateLt bty today then mkDate (today.year + 1) bd.month bd.day else some bty

/-- Lines 308-311: the weekend shift applied to the reported date. -/
def weekendShift (b : Date) : Date :=
  if weekday b = 5 then addDays b 2
  else if weekday b = 6 then addDays b 1
  else b

/-- The per-record body of the loop of `get_upcoming_birthdays`
(lines 298-314); `none` when the record contributes nothing (no birthday,
parse failure, swallowed `ValueError`, or outside the window). -/
def upcomingEntry (today : Date) (days : Nat) (r : Record) : Option Str :=
  match r.birthday with
  | none => none
  | some s =>
    match parseDMY s with
    | none => none
    | some bd =>
      match nextOccurrence today bd with
      | none => none
      | some b =>
        if dateLe today b ∧ dateLe b (addDays today days) then
          some (r.name ++ str ": " ++ fmtDate (weekendShift b))
        else none

/-- `AddressBook.get_upcoming_birthdays` (lines 294-315), with the current
date passed explicitly. -/
def get_upcoming_birthdays (today : Date) (book : Book) (days : Nat := 7) : List Str :=
  book.filterMap (upcomingEntry today days)

/-- The record of the spec scenario: birthday 15.05.1990 (a Thursday in
2025). -/
def recBirthdayMay : Record :=
  { Record_init (str "Ivan Petrov") with birthday := some (str "15.05.1990") }

/-- A record whose 2025 birthday 17.05 falls on a Saturday. -/
def recSatBirthday : Record :=
  { Record_init (str "Anna") with birthday := some (str "17.05.1990") }

/-- A record whose 2025 birthday 18.05 falls on a Sunday. -/
def recSunBirthday : Record :=
  { Record_init (str "Olha") with birthday := some (str "18.05.1990") }

/-- C5: for a record whose stored birthday parses, `get_upcoming_birthdays`
with horizon 7 includes the record exactly when its next occurrence lies in
the inclusive window `[today, today + 7]`, the window test using the
unshifted date; the reported congratulation date is that date shifted
forward 2 days on a Saturday, 1 day on a Sunday, and unshifted otherwise.
The closed conjuncts check the spec's scenarios: a weekday birthday
reported unshifted, Saturday and Sunday birthdays shifted to the following
Monday, and a Saturday birthday on day 7 of the window still reported even
though the shifted date falls outside the window. -/
theorem upcoming_birthdays_window_and_shift (today : Date) (book : Book)
    (r : Record) (s : Str) (bd b : Date)
    (hb : r.birthday = some s) (hp : parseDMY s = some bd)
    (hn : nextOccurrence today bd = some b) :
    get_upcoming_birthdays today book = book.filterMap (upcomingEntry today 7) ∧
    upcomingEntry today 7 r =
      (if dateLe today b ∧ dateLe b (addDays today 7) then
        some (r.name ++ str ": " ++ fmtDate
          (if weekday b = 5 then addDays b 2
           else if weekday b = 6 then addDays b 1
           else b))
      else none) ∧
    get_upcoming_birthdays ⟨2025, 5, 10⟩ [recBirthdayMay] =
      [str "Ivan Petrov: 15.05.2025"] ∧
    get_upcoming_birthdays ⟨2025, 5, 12⟩ [recSatBirthday] = [str "Anna: 19.05.2025"] ∧
    get_upcoming_birthdays ⟨2025, 5, 12⟩ [recSunBirthday] = [str "Olha: 19.05.2025"] ∧
    get_upcoming_birthdays ⟨2025, 5, 10⟩ [recSatBirthday] = [str "Anna: 19.05.2025"] := by
  refine ⟨rfl, ?_, by decide, by decide, by decide, by decide⟩
  unfold upcomingEntry weekendShift
  rw [hb]
  dsimp only []
  rw [hp]
  dsimp only []
  rw [hn]

theorem upcoming_birthdays_window_and_shift_witness :
    get_upcoming_birthdays ⟨2025, 5, 10⟩ [recBirthdayMay] =
      [recBirthdayMay].filterMap (upcomingEntry ⟨2025, 5, 10⟩ 7) ∧
    upcomingEntry ⟨2025, 5, 10⟩ 7 recBirthdayMay =
      (if dateLe ⟨2025, 5, 10⟩ ⟨2025, 5, 15⟩ ∧
          dateLe ⟨2025, 5, 15⟩ (addDays ⟨2025, 5, 10⟩ 7) then
        some (recBirthdayMay.name ++ str ": " ++ fmtDate
          (if weekday ⟨2025, 5, 15⟩ = 5 then addDays ⟨2025, 5, 15⟩ 2
           else if weekday ⟨2025, 5, 15⟩ = 6 then addDays ⟨2025, 5, 15⟩ 1
           else ⟨2025, 5, 15⟩))
      else none) ∧
    get_upcoming_birthdays ⟨2025, 5, 10⟩ [recBirthdayMay] =
      [str "Ivan Petrov: 15.05.2025"] ∧
    get_upcoming_birthdays ⟨2025, 5, 12⟩ [recSatBirthday] = [str "Anna: 19.05.2025"] ∧
    get_upcoming_birthdays ⟨2025, 5, 12⟩ [recSunBirthday] = [str "Olha: 19.05.2025"] ∧
    get_upcoming_birthdays ⟨2025, 5, 10⟩ [recSatBirthday] = [str "Anna: 19.05.2025"] :=
  upcoming_birthdays_window_and_shift ⟨2025, 5, 10⟩ [recBirthdayMay] recBirthdayMay
    (str "15.05.1990") ⟨1990, 5, 15⟩ ⟨2025, 5, 15⟩ (by decide) (by decide) (by decide)

/-- C9: a well-formed 29 February birthday is silently skipped whenever the
current year is not a leap year: the year replacement fails, the error is
swallowed, and the record contributes nothing to the result. -/
theorem feb29_birthday_skipped_in_nonleap_year (today : Date) (r : Record)
    (s : Str) (bd : Date)
    (hb : r.birthday = some s) (hp : parseDMY s = some bd)
    (hm : bd.month = 2) (hd : bd.day = 29)
    (hleap : isLeap today.year = false) :
    upcomingEntry today 7 r = none ∧
    ∀ pre post : Book,
      get_upcoming_birthdays today (pre ++ r :: post) =
        get_upcoming_birthdays today (pre ++ post) := by
  have hmk : mkDate today.year bd.month bd.day = none := by
    rw [hm, hd]
    unfold mkDate
    rw [if_neg]
    unfold dateOk daysInMonth
    rw [if_pos rfl, hleap]
    simp
  have hnone : upcomingEntry today 7 r = none := by
    unfold upcomingEntry nextOccurrence
    rw [hb]
    dsimp only []
    rw [hp]
    dsimp only []
    rw [hmk]
  refine ⟨hnone, ?_⟩
  intro pre post
  unfold get_upcoming_birthdays
  rw [List.filterMap_append, List.filterMap_append, List.filterMap_cons, hnone]

/-- The record with the leap-day birthday 29.02.2000. -/
def recLeapBirthday : Record :=
  { Record_init (str "Leap") with birthday := some (str "29.02.2000") }

theorem feb29_birthday_skipped_in_nonleap_year_witness :
    upcomingEntry ⟨2025, 2, 25⟩ 7 recLeapBirthday = none ∧
    ∀ pre post : Book,
      get_upcoming_birthdays ⟨2025, 2, 25⟩ (pre ++ recLeapBirthday :: post) =
        get_upcoming_birthdays ⟨2025, 2, 25⟩ (pre ++ post) :=
  feb29_birthday_skipped_in_nonleap_year ⟨2025, 2, 25⟩ recLeapBirthday
    (str "29.02.2000") ⟨2000, 2, 29⟩ (by decide) (by decide) (by decide) (by decide)
    (by decide)

end AB
